import Mathlib

/-
Verification of the order pricing, stock-allocation and settlement engine of a
multi-tenant order/ledger management front-end.

The TypeScript source is shallowly embedded:
* JavaScript numbers are modelled as `Option ℚ` (`JsNum`), where `none` stands
  for `NaN`; every arithmetic spot where the source guards with `isNaN` maps
  `none` to `0` (`nanToZero`).  Fields that can only hold real numeric data
  (stock quantities, balances, prices coming from the server) are plain `ℚ`.
* `new Map(pairs)` lookup is last-entry-wins (`jsMapGet`).
* `Array.prototype.sort` with a comparator (a stable sort in modern engines)
  is modelled with `List.insertionSort`, which is stable.
* ISO-8601 `createdAt` strings ordered by `localeCompare` are modelled as `ℕ`
  timestamps: lexicographic order on ISO date strings is chronological order.
* Validation error strings are modelled as structures carrying exactly the
  data interpolated into the source's template strings.
-/

namespace FinAssist

/-- A JavaScript number: `none` is `NaN`. -/
abbrev JsNum := Option ℚ

/-- The `isNaN(x) ? 0 : x` guard used throughout the source. -/
def nanToZero (x : JsNum) : ℚ := x.getD 0

/-- JavaScript multiplication: `NaN` is absorbing. -/
def jsMul (a b : JsNum) : JsNum :=
  match a, b with
  | some x, some y => some (x * y)
  | _, _ => none

/-- JavaScript `x || d` on a number: `NaN` and `0` are falsy. -/
def jsOrDefault (x : JsNum) (d : ℚ) : ℚ :=
  match x with
  | none => d
  | some v => if v = 0 then d else v

/-- JavaScript `a > b` where `a` may be `NaN` (comparison with `NaN` is false). -/
def jsGT (a : JsNum) (b : ℚ) : Bool :=
  match a with
  | some x => decide (b < x)
  | none => false

/-- Last-entry-wins lookup, the semantics of `new Map(pairs).get(key)`. -/
def jsMapGet {α : Type} (pairs : List (String × α)) (key : String) : Option α :=
  pairs.foldl (fun found pair => if pair.1 = key then some pair.2 else found) none

/-- Order type strings occurring in the source: `"BUY" | "SELL" | "MISC"`. -/
inductive OrderType where
  | BUY
  | SELL
  | MISC
deriving DecidableEq

/-- The `"fixed" | "percentage"` discriminator of charges, discount and tax. -/
inductive AmountKind where
  | fixed
  | percentage
deriving DecidableEq

/-- One FIFO stock lot of a product variant (`stock_fifo_queue` entry). -/
structure StockEntry where
  availableStock : ℚ
  estimatedPrice : ℚ
deriving DecidableEq

/-- A product variant (fields of `ProductVariant` used by the core). -/
structure ProductVariant where
  id : String
  name : String
  price : ℚ
  buyPrice : ℚ
  stock_fifo_queue : Option (List StockEntry)
deriving DecidableEq

/-- A product (fields used by the core); `variants` may be absent. -/
structure Product where
  id : String
  name : String
  variants : Option (List ProductVariant)
deriving DecidableEq

/-- A cart line item (`OrderProduct` in `types.ts`); `rate` and `quantity`
come from free-form numeric inputs and may be `NaN`. -/
structure OrderProduct where
  productId : String
  variantId : String
  rate : JsNum
  quantity : JsNum
  description : String
deriving DecidableEq

/-- An extra charge on the order (`OrderCharge` in `types.ts`). -/
structure OrderCharge where
  id : String
  name : String
  amount : JsNum
  type : AmountKind
  percentage : JsNum
  isPaidByBusiness : Bool
deriving DecidableEq

/-- A payment line (`OrderPayment` in `types.ts`). -/
structure OrderPayment where
  accountId : String
  amount : ℚ
deriving DecidableEq

/-- A financial account (fields used by balance validation). -/
structure Account where
  id : String
  name : String
  type : String
  balance : ℚ
deriving DecidableEq

/-- A counterparty entity (fields used by the order form). -/
structure Entity where
  id : String
  name : String
  isDefault : Bool
deriving DecidableEq

/-- An order in an entity's ledger (fields used by `SingleEntityDetails`).
`createdAt` is an ISO date modelled as a timestamp; `paidTillNow` may be
absent (`order.paidTillNow || 0` in the source). -/
structure Order where
  id : String
  type : OrderType
  createdAt : ℕ
  totalAmount : ℚ
  paidTillNow : JsNum
deriving DecidableEq

/-! ### Order Pricing Engine (`src/components/forms/order/types.ts`, utils part) -/

/-- `calculateSubTotal`: NaN-safe sum of `rate * quantity` over line items. -/
def calculateSubTotal (products : List OrderProduct) : ℚ :=
  products.foldl
    (fun sum product => sum + nanToZero (jsMul product.rate product.quantity)) 0

/-- `calculateChargeAmount`: counterparty-absorbed charge total.  Percentage
charges apply to `subTotal - discount`; NaN terms contribute zero. -/
def calculateChargeAmount (subTotal discount : ℚ) (charges : List OrderCharge) : ℚ :=
  let baseAmount := subTotal - discount
  (charges.filter (fun charge => !charge.isPaidByBusiness)).foldl
    (fun sum charge =>
      let chargeAmount : JsNum :=
        if charge.type = AmountKind.percentage then
          charge.percentage.map (fun p => baseAmount * p / 100)
        else charge.amount
      sum + nanToZero chargeAmount) 0

/-- `calculateVendorCharges`: business-absorbed charge total.  Percentage
charges apply to the raw `subTotal` (not discount-adjusted). -/
def calculateVendorCharges (subTotal : ℚ) (charges : List OrderCharge) : ℚ :=
  (charges.filter (fun charge => charge.isPaidByBusiness)).foldl
    (fun sum charge =>
      let chargeAmount : JsNum :=
        if charge.type = AmountKind.percentage then
          charge.percentage.map (fun p => subTotal * p / 100)
        else charge.amount
      sum + nanToZero chargeAmount) 0

/-- `calculateGrandTotal = max(subTotal - discount + tax + chargeAmount, 0)`. -/
def calculateGrandTotal (subTotal discount tax : ℚ) (charges : List OrderCharge) : ℚ :=
  let chargeAmount := calculateChargeAmount subTotal discount charges
  max (subTotal - discount + tax + chargeAmount) 0

/-- Contribution of a single charge to the counterparty-absorbed total,
written following the spec: a percentage charge not absorbed by business
contributes `(subTotal - discount) * percentage / 100`, a fixed one its
amount, an absorbed one nothing, and NaN terms contribute zero. -/
def entityChargeContribSpec (subTotal discount : ℚ) (charge : OrderCharge) : ℚ :=
  if charge.isPaidByBusiness then 0
  else if charge.type = AmountKind.percentage then
    nanToZero (charge.percentage.map (fun p => (subTotal - discount) * p / 100))
  else nanToZero charge.amount

/-- Contribution of a single charge to the business-absorbed total, written
following the spec: a percentage charge absorbed by business contributes
`subTotal * percentage / 100` (not discount-adjusted), a fixed one its
amount, a non-absorbed one nothing, and NaN terms contribute zero. -/
def vendorChargeContribSpec (subTotal : ℚ) (charge : OrderCharge) : ℚ :=
  if charge.isPaidByBusiness then
    if charge.type = AmountKind.percentage then
      nanToZero (charge.percentage.map (fun p => subTotal * p / 100))
    else nanToZero charge.amount
  else 0

/-! ### Helper lemmas about folded sums -/

lemma foldl_add_sum {α : Type} (f : α → ℚ) :
    ∀ (l : List α) (a : ℚ),
      List.foldl (fun s x => s + f x) a l = a + (l.map f).sum := by
  intro l
  induction l with
  | nil => intro a; simp
  | cons x xs ih =>
    intro a
    simp only [List.foldl, List.map, List.sum_cons, ih]
    ring

lemma calculateSubTotal_eq_sum (products : List OrderProduct) :
    calculateSubTotal products
      = (products.map (fun p => nanToZero (jsMul p.rate p.quantity))).sum := by
  unfold calculateSubTotal
  simpa using foldl_add_sum (fun p => nanToZero (jsMul p.rate p.quantity)) products 0

lemma calculateChargeAmount_eq_sum (s d : ℚ) (charges : List OrderCharge) :
    calculateChargeAmount s d charges
      = (charges.map (entityChargeContribSpec s d)).sum := by
  unfold calculateChargeAmount
  rw [foldl_add_sum
    (fun charge => nanToZero
      (if charge.type = AmountKind.percentage then
        charge.percentage.map (fun p => (s - d) * p / 100)
      else charge.amount)) (charges.filter (fun charge => !charge.isPaidByBusiness)) 0]
  rw [zero_add]
  induction charges with
  | nil => simp
  | cons c cs ih =>
    by_cases hb : c.isPaidByBusiness
    · simp [List.filter, hb, entityChargeContribSpec, ih]
    · by_cases ht : c.type = AmountKind.percentage
      · simp [List.filter, hb, entityChargeContribSpec, ht, ih]
      · simp [List.filter, hb, entityChargeContribSpec, ht, ih]

lemma calculateVendorCharges_eq_sum (s : ℚ) (charges : List OrderCharge) :
    calculateVendorCharges s charges
      = (charges.map (vendorChargeContribSpec s)).sum := by
  unfold calculateVendorCharges
  rw [foldl_add_sum
    (fun charge => nanToZero
      (if charge.type = AmountKind.percentage then
        charge.percentage.map (fun p => s * p / 100)
      else charge.amount)) (charges.filter (fun charge => charge.isPaidByBusiness)) 0]
  rw [zero_add]
  induction charges with
  | nil => simp
  | cons c cs ih =>
    by_cases hb : c.isPaidByBusiness
    · by_cases ht : c.type = AmountKind.percentage
      · simp [List.filter, hb, vendorChargeContribSpec, ht, ih]
      · simp [List.filter, hb, vendorChargeContribSpec, ht, ih]
    · simp [List.filter, hb, vendorChargeContribSpec, ih]

/-! ### Claim theorems: pricing -/

/-- Claim C1: for every list of line items, discount, tax and charge list, the
grand total equals `max(subTotal - discount + tax + chargeAmount, 0)`, where
`subTotal` is the NaN-safe sum of `quantity * rate` over the line items and
`chargeAmount` is the counterparty-absorbed charge total; in particular the
grand total is nonnegative for all inputs, including when the discount
exceeds the subtotal. -/
theorem grand_total_floor_spec (products : List OrderProduct)
    (s discount tax : ℚ) (charges : List OrderCharge) :
    calculateSubTotal products
        = (products.map (fun p => nanToZero (jsMul p.rate p.quantity))).sum
    ∧ calculateGrandTotal (calculateSubTotal products) discount tax charges
        = max (calculateSubTotal products - discount + tax
            + calculateChargeAmount (calculateSubTotal products) discount charges) 0
    ∧ 0 ≤ calculateGrandTotal s discount tax charges := by
  refine ⟨calculateSubTotal_eq_sum products, rfl, ?_⟩
  unfold calculateGrandTotal
  exact le_max_right _ _

/-- Claim C5: the counterparty-absorbed charge total is the sum, over all
charges, of the spec's per-charge contribution — `(subTotal - discount) *
percentage / 100` for a percentage charge not absorbed by business, the
charge amount for a fixed one — and the business-absorbed total is the sum
of `subTotal * percentage / 100` (not discount-adjusted) for absorbed
percentage charges and the amount for absorbed fixed ones; NaN terms
contribute zero to each sum. -/
theorem charge_buckets_spec (s d : ℚ) (charges : List OrderCharge) :
    calculateChargeAmount s d charges = (charges.map (entityChargeContribSpec s d)).sum
    ∧ calculateVendorCharges s charges = (charges.map (vendorChargeContribSpec s)).sum :=
  ⟨calculateChargeAmount_eq_sum s d charges, calculateVendorCharges_eq_sum s charges⟩

/-! ### FIFO Stock Ledger (`src/components/forms/order/product-details.tsx`) -/

/-- `getVariantStock`: total available stock across the variant's FIFO queue;
`0` when the variant or its queue is absent. -/
def getVariantStock : Option ProductVariant → ℚ
  | none => 0
  | some variant =>
    match variant.stock_fifo_queue with
    | none => 0
    | some queue => queue.foldl (fun total entry => total + entry.availableStock) 0

/-- `Number.prototype.toFixed` rounding: round half away from zero (the
ES algorithm negates a negative argument first and then picks the larger of
two equally near integers). -/
def roundHalfAway (x : ℚ) : ℤ :=
  if x < 0 then -⌊-x + 1 / 2⌋ else ⌊x + 1 / 2⌋

/-- `parseFloat(x.toFixed(4))`: rounding to 4 decimal places. -/
def roundTo4 (x : ℚ) : ℚ := (roundHalfAway (x * 10000) : ℚ) / 10000

/-- The accumulation loop of `getVariantEstimatedPrice`: walk the FIFO queue
oldest-first, consume up to `availableStock` from each lot, total the cost,
stop once the requested quantity is covered. -/
def fifoWalk : List StockEntry → ℚ → ℚ
  | [], _ => 0
  | entry :: rest, remainingQty =>
    if entry.availableStock ≤ 0 then fifoWalk rest remainingQty
    else
      let qtyToUse := min entry.availableStock remainingQty
      if remainingQty - qtyToUse ≤ 0 then qtyToUse * entry.estimatedPrice
      else qtyToUse * entry.estimatedPrice + fifoWalk rest (remainingQty - qtyToUse)

/-- `getVariantEstimatedPrice`: FIFO weighted price for a requested quantity,
`0` when the queue is absent, the quantity is nonpositive, or the quantity
exceeds the total available stock; otherwise `totalPrice / quantity` rounded
to 4 decimal places. -/
def getVariantEstimatedPrice (variant : ProductVariant) (quantity : ℚ) : ℚ :=
  let totalStock := getVariantStock (some variant)
  match variant.stock_fifo_queue with
  | none => 0
  | some queue =>
    if quantity ≤ 0 ∨ totalStock < quantity then 0
    else roundTo4 (fifoWalk queue quantity / quantity)

/-- The price-breakdown loop (tooltip in `ProductItemRow`): the sequence of
`(lot, quantity taken)` pairs consumed by the same oldest-first traversal as
`getVariantEstimatedPrice`. -/
def fifoBreakdown : List StockEntry → ℚ → List (StockEntry × ℚ)
  | [], _ => []
  | entry :: rest, remainingQty =>
    if entry.availableStock ≤ 0 ∨ remainingQty ≤ 0 then fifoBreakdown rest remainingQty
    else
      let qtyToUse := min entry.availableStock remainingQty
      (entry, qtyToUse) :: fifoBreakdown rest (remainingQty - qtyToUse)

/-- `l₁` is an initial segment of the consumption sequence `l₂`: identical
pairs in identical order, except that `l₁` may end early with the same lot
but a smaller (or equal) quantity taken. -/
inductive ConsumeInit : List (StockEntry × ℚ) → List (StockEntry × ℚ) → Prop where
  | nil (l : List (StockEntry × ℚ)) : ConsumeInit [] l
  | short (entry : StockEntry) (q1 q2 : ℚ) (l : List (StockEntry × ℚ))
      (h : q1 ≤ q2) : ConsumeInit [(entry, q1)] ((entry, q2) :: l)
  | cons (p : StockEntry × ℚ) {l1 l2 : List (StockEntry × ℚ)}
      (h : ConsumeInit l1 l2) : ConsumeInit (p :: l1) (p :: l2)

lemma fifoBreakdown_nonpos : ∀ (queue : List StockEntry) (q : ℚ), q ≤ 0 →
    fifoBreakdown queue q = [] := by
  intro queue
  induction queue with
  | nil => intro q _; rfl
  | cons entry rest ih =>
    intro q hq
    simp only [fifoBreakdown]
    rw [if_pos (Or.inr hq)]
    exact ih q hq

lemma fifoBreakdown_consumeInit :
    ∀ (queue : List StockEntry) (q1 q2 : ℚ), 0 < q1 → q1 ≤ q2 →
      ConsumeInit (fifoBreakdown queue q1) (fifoBreakdown queue q2) := by
  intro queue
  induction queue with
  | nil => intro q1 q2 _ _; exact ConsumeInit.nil _
  | cons entry rest ih =>
    intro q1 q2 hq1 hle
    have hq2 : 0 < q2 := lt_of_lt_of_le hq1 hle
    by_cases ha : entry.availableStock ≤ 0
    · simp only [fifoBreakdown]
      rw [if_pos (Or.inl ha), if_pos (Or.inl ha)]
      exact ih q1 q2 hq1 hle
    · push_neg at ha
      simp only [fifoBreakdown]
      rw [if_neg (by push_neg; exact ⟨ha, hq1⟩), if_neg (by push_neg; exact ⟨ha, hq2⟩)]
      by_cases hcase : q1 ≤ entry.availableStock
      · have hm1 : min entry.availableStock q1 = q1 := min_eq_right hcase
        rw [hm1]
        rw [fifoBreakdown_nonpos rest (q1 - q1) (by linarith)]
        exact ConsumeInit.short entry q1 (min entry.availableStock q2) _
          (le_min hcase hle)
      · push_neg at hcase
        have hm1 : min entry.availableStock q1 = entry.availableStock :=
          min_eq_left (le_of_lt hcase)
        have hm2 : min entry.availableStock q2 = entry.availableStock :=
          min_eq_left (by linarith)
        rw [hm1, hm2]
        exact ConsumeInit.cons _ (ih (q1 - entry.availableStock)
          (q2 - entry.availableStock) (by linarith) (by linarith))

lemma fifoBreakdown_sublist :
    ∀ (queue : List StockEntry) (q : ℚ),
      ((fifoBreakdown queue q).map Prod.fst).Sublist queue := by
  intro queue
  induction queue with
  | nil => intro q; simp [fifoBreakdown]
  | cons entry rest ih =>
    intro q
    by_cases h : entry.availableStock ≤ 0 ∨ q ≤ 0
    · simp only [fifoBreakdown]
      rw [if_pos h]
      exact (ih q).cons entry
    · simp only [fifoBreakdown]
      rw [if_neg h]
      exact (ih (q - min entry.availableStock q)).cons₂ entry

lemma fifoWalk_eq_breakdown_sum :
    ∀ (queue : List StockEntry) (q : ℚ), 0 < q →
      fifoWalk queue q
        = ((fifoBreakdown queue q).map (fun p => p.2 * p.1.estimatedPrice)).sum := by
  intro queue
  induction queue with
  | nil => intro q _; simp [fifoWalk, fifoBreakdown]
  | cons entry rest ih =>
    intro q hq
    by_cases ha : entry.availableStock ≤ 0
    · have hw : fifoWalk (entry :: rest) q = fifoWalk rest q := by
        simp [fifoWalk, ha]
      have hb : fifoBreakdown (entry :: rest) q = fifoBreakdown rest q := by
        simp [fifoBreakdown, ha]
      rw [hw, hb]
      exact ih q hq
    · push_neg at ha
      have hbd : fifoBreakdown (entry :: rest) q
          = (entry, min entry.availableStock q)
            :: fifoBreakdown rest (q - min entry.availableStock q) := by
        simp [fifoBreakdown, not_le.mpr ha, not_le.mpr hq]
      have hmin_le : min entry.availableStock q ≤ q := min_le_right _ _
      by_cases hz : q - min entry.availableStock q ≤ 0
      · have hzero : q - min entry.availableStock q = 0 := le_antisymm hz (by linarith)
        have hw : fifoWalk (entry :: rest) q
            = min entry.availableStock q * entry.estimatedPrice := by
          simp [fifoWalk, not_le.mpr ha, hz]
        rw [hw, hbd]
        simp [fifoBreakdown_nonpos rest _ (le_of_eq hzero)]
      · push_neg at hz
        have hw : fifoWalk (entry :: rest) q
            = min entry.availableStock q * entry.estimatedPrice
              + fifoWalk rest (q - min entry.availableStock q) := by
          simp [fifoWalk, not_le.mpr ha, not_le.mpr hz]
        rw [hw, hbd]
        simp [ih _ hz]

/-! ### Claim theorems: FIFO weighted price -/

/-- The scenario variant: lots `[{qty 5, cost 10}, {qty 10, cost 12}]`. -/
def demoQueue : List StockEntry := [⟨5, 10⟩, ⟨10, 12⟩]

/-- A concrete variant holding `demoQueue`. -/
def demoVariant : ProductVariant :=
  { id := "v1", name := "Variant A", price := 20, buyPrice := 8,
    stock_fifo_queue := some demoQueue }

/-- Claim C3, counterexample: for lots `[{qty 5, cost 10}, {qty 10, cost 12}]`
the weighted price of 8 units is `(5*10 + 3*12)/8 = 86/8 = 10.75`, not the
claimed `9.25`. -/
theorem weighted_price_example_refuted :
    getVariantEstimatedPrice demoVariant 8 = 10.75
    ∧ getVariantEstimatedPrice demoVariant 8 ≠ 9.25 := by
  have h : getVariantEstimatedPrice demoVariant 8 = 43 / 4 := by
    norm_num [getVariantEstimatedPrice, getVariantStock, demoVariant, demoQueue,
      fifoWalk, roundTo4, roundHalfAway]
  rw [h]
  norm_num

/-- Claim C3, amended: the FIFO weighted-price query walks the variant's
stock lots oldest-first, consuming up to each lot's available quantity until
the requested quantity is costed, and returns `totalCost / quantity` rounded
to 4 decimal places; it returns 0 whenever the quantity is nonpositive, the
queue is absent, or the quantity exceeds the variant's total available
stock; for lots `[{qty 5, cost 10}, {qty 10, cost 12}]` the weighted price
of 8 units is `10.75`. -/
theorem weighted_price_spec (variant : ProductVariant) (q : ℚ) :
    (q ≤ 0 → getVariantEstimatedPrice variant q = 0)
    ∧ (variant.stock_fifo_queue = none → getVariantEstimatedPrice variant q = 0)
    ∧ (getVariantStock (some variant) < q → getVariantEstimatedPrice variant q = 0)
    ∧ (∀ queue, variant.stock_fifo_queue = some queue → 0 < q →
        q ≤ getVariantStock (some variant) →
        getVariantEstimatedPrice variant q = roundTo4 (fifoWalk queue q / q)
        ∧ fifoWalk queue q
            = ((fifoBreakdown queue q).map (fun p => p.2 * p.1.estimatedPrice)).sum)
    ∧ getVariantEstimatedPrice demoVariant 8 = 10.75 := by
  refine ⟨?_, ?_, ?_, ?_, ?_⟩
  · intro hq
    unfold getVariantEstimatedPrice
    cases hqueue : variant.stock_fifo_queue with
    | none => simp
    | some queue => simp [hq]
  · intro hqueue
    unfold getVariantEstimatedPrice
    simp [hqueue]
  · intro hlt
    unfold getVariantEstimatedPrice
    cases hqueue : variant.stock_fifo_queue with
    | none => simp
    | some queue => simp [Or.inr hlt]
  · intro queue hqueue hpos hle
    constructor
    · have hcond : ¬ (q ≤ 0 ∨ getVariantStock (some variant) < q) := by
        push_neg
        exact ⟨hpos, hle⟩
      unfold getVariantEstimatedPrice
      simp only [hqueue]
      simp [hcond]
    · exact fifoWalk_eq_breakdown_sum queue q hpos
  · have h : getVariantEstimatedPrice demoVariant 8 = 43 / 4 := by
      norm_num [getVariantEstimatedPrice, getVariantStock, demoVariant, demoQueue,
        fifoWalk, roundTo4, roundHalfAway]
    rw [h]
    norm_num

/-- Claim C3, witness: the in-range branch at the scenario input. -/
theorem weighted_price_spec_witness :
    (0:ℚ) < 8 ∧ (8:ℚ) ≤ getVariantStock (some demoVariant)
    ∧ getVariantEstimatedPrice demoVariant 8 = roundTo4 (fifoWalk demoQueue 8 / 8) :=
  ⟨by norm_num, by norm_num [getVariantStock, demoVariant, demoQueue],
    (((weighted_price_spec demoVariant 8).2.2.2.1 demoQueue rfl (by norm_num)
      (by norm_num [getVariantStock, demoVariant, demoQueue])).1)⟩

/-- Claim C4: for quantities `0 < q1 < q2` both within the variant's
available stock, the weighted-price computation consumes lots strictly
oldest-first (the consumed lots form an in-order sublist of the FIFO queue),
and the sequence of `(lot, quantity taken)` pairs consumed for `q1` is an
initial segment of the sequence consumed for `q2` — identical lots in
identical order, with only the last lot's taken quantity possibly smaller;
the priced total of each walk is the sum over its consumption sequence. -/
theorem fifo_cut_monotone (variant : ProductVariant) (queue : List StockEntry)
    (q1 q2 : ℚ) (_hqueue : variant.stock_fifo_queue = some queue)
    (h1 : 0 < q1) (h12 : q1 < q2) (_h2 : q2 ≤ getVariantStock (some variant)) :
    ConsumeInit (fifoBreakdown queue q1) (fifoBreakdown queue q2)
    ∧ ((fifoBreakdown queue q1).map Prod.fst).Sublist queue
    ∧ ((fifoBreakdown queue q2).map Prod.fst).Sublist queue
    ∧ fifoWalk queue q1
        = ((fifoBreakdown queue q1).map (fun p => p.2 * p.1.estimatedPrice)).sum
    ∧ fifoWalk queue q2
        = ((fifoBreakdown queue q2).map (fun p => p.2 * p.1.estimatedPrice)).sum :=
  ⟨fifoBreakdown_consumeInit queue q1 q2 h1 (le_of_lt h12),
    fifoBreakdown_sublist queue q1,
    fifoBreakdown_sublist queue q2,
    fifoWalk_eq_breakdown_sum queue q1 h1,
    fifoWalk_eq_breakdown_sum queue q2 (lt_trans h1 h12)⟩

/-- Claim C4, witness: the scenario variant with `q1 = 3 < q2 = 8 ≤ 15`. -/
theorem fifo_cut_monotone_witness :
    (0:ℚ) < 3 ∧ (3:ℚ) < 8 ∧ (8:ℚ) ≤ getVariantStock (some demoVariant)
    ∧ ConsumeInit (fifoBreakdown demoQueue 3) (fifoBreakdown demoQueue 8) :=
  ⟨by norm_num, by norm_num, by norm_num [getVariantStock, demoVariant, demoQueue],
    (fifo_cut_monotone demoVariant demoQueue 3 8 rfl (by norm_num) (by norm_num)
      (by norm_num [getVariantStock, demoVariant, demoQueue])).1⟩

/-! ### Stock Validation (`validateProductQuantities` in `types.ts`, utils part) -/

/-- The data interpolated into a stock validation error string:
`Item #<index+1> (<product name> - <variant name>): Quantity (<quantity>)
exceeds available stock (<available>).`  The product name is absent when the
line's `productId` does not resolve. -/
structure StockError where
  itemNumber : ℕ
  productName : Option String
  variantName : String
  quantity : JsNum
  available : ℚ
deriving DecidableEq

/-- The `variantMap` pair list: `products.flatMap(p => p.variants?.map(v =>
[v.id, v]) ?? [])`. -/
def variantPairs (products : List Product) : List (String × ProductVariant) :=
  products.flatMap (fun p => (p.variants.getD []).map (fun v => (v.id, v)))

/-- The `productMap` pair list: `products.map(p => [p.id, p])`. -/
def productPairs (products : List Product) : List (String × Product) :=
  products.map (fun p => (p.id, p))

/-- Whether an indexed line item fails the stock check: its variant resolves
and its quantity exceeds the variant's available stock. -/
def offendsStock (products : List Product) (iv : ℕ × OrderProduct) : Bool :=
  match jsMapGet (variantPairs products) iv.2.variantId with
  | some variant => jsGT iv.2.quantity (getVariantStock (some variant))
  | none => false

/-- The error record pushed for an offending line. -/
def mkStockError (products : List Product) (iv : ℕ × OrderProduct) : StockError :=
  match jsMapGet (variantPairs products) iv.2.variantId with
  | some variant =>
    { itemNumber := iv.1 + 1
      productName := (jsMapGet (productPairs products) iv.2.productId).map Product.name
      variantName := variant.name
      quantity := iv.2.quantity
      available := getVariantStock (some variant) }
  | none =>
    { itemNumber := iv.1 + 1, productName := none, variantName := "",
      quantity := iv.2.quantity, available := 0 }

/-- `validateProductQuantities`: for non-SELL orders always valid; for SELL
orders, one error per line item whose resolved variant has less available
stock than the requested quantity; `isValid = errors.length === 0`. -/
def validateProductQuantities (type : OrderType) (products : List Product)
    (addedProducts : List OrderProduct) : Bool × List StockError :=
  if type ≠ OrderType.SELL then (true, [])
  else
    let errors := addedProducts.enum.filterMap (fun iv =>
      match jsMapGet (variantPairs products) iv.2.variantId with
      | some variant =>
        if jsGT iv.2.quantity (getVariantStock (some variant)) then
          some
            { itemNumber := iv.1 + 1
              productName := (jsMapGet (productPairs products) iv.2.productId).map Product.name
              variantName := variant.name
              quantity := iv.2.quantity
              available := getVariantStock (some variant) }
        else none
      | none => none)
    (errors.isEmpty, errors)

/-! ### Balance Validation (`validateAccountBalances` in `types.ts`, utils part) -/

/-- The data interpolated into a balance validation error string:
`Payment #<index+1> (<account name>): Amount (<amount>) exceeds balance
(<balance>)`. -/
structure BalanceError where
  paymentNumber : ℕ
  accountName : String
  amount : ℚ
  balance : ℚ
deriving DecidableEq

/-- The `accountMap` pair list: `accounts.map(acc => [acc.id, acc])`. -/
def accountPairs (accounts : List Account) : List (String × Account) :=
  accounts.map (fun acc => (acc.id, acc))

/-- Whether an indexed payment fails the balance check: its account resolves
and the payment amount exceeds the account balance. -/
def offendsBalance (accounts : List Account) (ip : ℕ × OrderPayment) : Bool :=
  match jsMapGet (accountPairs accounts) ip.2.accountId with
  | some account => decide (account.balance < ip.2.amount)
  | none => false

/-- The error record pushed for an offending payment. -/
def mkBalanceError (accounts : List Account) (ip : ℕ × OrderPayment) : BalanceError :=
  match jsMapGet (accountPairs accounts) ip.2.accountId with
  | some account =>
    { paymentNumber := ip.1 + 1, accountName := account.name,
      amount := ip.2.amount, balance := account.balance }
  | none =>
    { paymentNumber := ip.1 + 1, accountName := "", amount := ip.2.amount, balance := 0 }

/-- `validateAccountBalances`: for non-BUY orders always valid; for BUY
orders, one error per payment whose resolved account has a balance smaller
than the payment amount; `isValid = errors.length === 0`. -/
def validateAccountBalances (payments : List OrderPayment) (accounts : List Account)
    (type : OrderType) : Bool × List BalanceError :=
  if type ≠ OrderType.BUY then (true, [])
  else
    let errors := payments.enum.filterMap (fun ip =>
      match jsMapGet (accountPairs accounts) ip.2.accountId with
      | some account =>
        if account.balance < ip.2.amount then
          some
            { paymentNumber := ip.1 + 1, accountName := account.name,
              amount := ip.2.amount, balance := account.balance }
        else none
      | none => none)
    (errors.isEmpty, errors)

/-! ### Helper lemmas for the validators -/

lemma filterMap_guard_eq_filter_map {α β : Type} (p : α → Bool) (g : α → β) :
    ∀ (l : List α),
      l.filterMap (fun a => if p a then some (g a) else none)
        = (l.filter p).map g := by
  intro l
  induction l with
  | nil => rfl
  | cons x xs ih =>
    by_cases hx : p x
    · simp [List.filterMap_cons, List.filter_cons, hx, ih]
    · simp [List.filterMap_cons, List.filter_cons, hx, ih]

lemma jsGT_iff (a : JsNum) (b : ℚ) :
    jsGT a b = true ↔ ∃ x, a = some x ∧ b < x := by
  cases a <;> simp [jsGT]

lemma stock_errors_eq (products : List Product) (addedProducts : List OrderProduct) :
    (validateProductQuantities OrderType.SELL products addedProducts).2
      = (addedProducts.enum.filter (offendsStock products)).map (mkStockError products) := by
  unfold validateProductQuantities
  simp only [if_neg (by simp : ¬ OrderType.SELL ≠ OrderType.SELL)]
  rw [← filterMap_guard_eq_filter_map (offendsStock products) (mkStockError products)]
  apply List.filterMap_congr
  intro iv _
  unfold offendsStock mkStockError
  cases hv : jsMapGet (variantPairs products) iv.2.variantId with
  | none => simp
  | some variant =>
    by_cases hq : jsGT iv.2.quantity (getVariantStock (some variant)) <;> simp [hq]

lemma balance_errors_eq (payments : List OrderPayment) (accounts : List Account) :
    (validateAccountBalances payments accounts OrderType.BUY).2
      = (payments.enum.filter (offendsBalance accounts)).map (mkBalanceError accounts) := by
  unfold validateAccountBalances
  simp only [if_neg (by simp : ¬ OrderType.BUY ≠ OrderType.BUY)]
  rw [← filterMap_guard_eq_filter_map (offendsBalance accounts) (mkBalanceError accounts)]
  apply List.filterMap_congr
  intro ip _
  unfold offendsBalance mkBalanceError
  cases ha : jsMapGet (accountPairs accounts) ip.2.accountId with
  | none => simp
  | some account =>
    by_cases hb : account.balance < ip.2.amount <;> simp [hb]

/-! ### Claim theorems: validation -/

/-- Claim C6: stock validation returns `{isValid, errors}` with `isValid`
true and `errors` empty whenever the order type is not SELL; for SELL
orders, `isValid = false` iff some line item with a resolved variant
requests strictly more than the variant's available stock (the sum of
`availableStock` over its FIFO queue), and the errors are exactly one
record per offending line, carrying the product name, variant name,
requested quantity and available quantity. -/
theorem stock_validation_spec (type : OrderType) (products : List Product)
    (addedProducts : List OrderProduct) :
    (type ≠ OrderType.SELL → validateProductQuantities type products addedProducts = (true, []))
    ∧ ((validateProductQuantities type products addedProducts).1
        = (validateProductQuantities type products addedProducts).2.isEmpty)
    ∧ ((validateProductQuantities OrderType.SELL products addedProducts).1 = false
        ↔ ∃ iv ∈ addedProducts.enum, ∃ variant,
            jsMapGet (variantPairs products) iv.2.variantId = some variant
            ∧ ∃ x, iv.2.quantity = some x ∧ getVariantStock (some variant) < x)
    ∧ (validateProductQuantities OrderType.SELL products addedProducts).2
        = (addedProducts.enum.filter (offendsStock products)).map (mkStockError products) := by
  refine ⟨?_, ?_, ?_, stock_errors_eq products addedProducts⟩
  · intro ht
    unfold validateProductQuantities
    rw [if_pos ht]
  · unfold validateProductQuantities
    by_cases ht : type ≠ OrderType.SELL
    · rw [if_pos ht]; rfl
    · rw [if_neg ht]
  · have hfst : (validateProductQuantities OrderType.SELL products addedProducts).1
        = (validateProductQuantities OrderType.SELL products addedProducts).2.isEmpty := by
      unfold validateProductQuantities
      rw [if_neg (by simp : ¬ OrderType.SELL ≠ OrderType.SELL)]
    constructor
    · intro hfalse
      rw [hfst, stock_errors_eq products addedProducts] at hfalse
      have hnil : (addedProducts.enum.filter (offendsStock products)).map
          (mkStockError products) ≠ [] := by simp_all
      rcases List.exists_mem_of_ne_nil _ hnil with ⟨e, he⟩
      rcases List.mem_map.mp he with ⟨iv, hivmem, _⟩
      rcases List.mem_filter.mp hivmem with ⟨hmem, hoff⟩
      refine ⟨iv, hmem, ?_⟩
      unfold offendsStock at hoff
      cases hv : jsMapGet (variantPairs products) iv.2.variantId with
      | none => rw [hv] at hoff; simp at hoff
      | some variant =>
        rw [hv] at hoff
        exact ⟨variant, rfl, (jsGT_iff _ _).mp hoff⟩
    · rintro ⟨iv, hmem, variant, hv, x, hx, hlt⟩
      have hoff : offendsStock products iv = true := by
        unfold offendsStock
        rw [hv]
        exact (jsGT_iff _ _).mpr ⟨x, hx, hlt⟩
      rw [hfst, stock_errors_eq products addedProducts]
      have hne : mkStockError products iv
          ∈ (addedProducts.enum.filter (offendsStock products)).map (mkStockError products) :=
        List.mem_map_of_mem _ (List.mem_filter.mpr ⟨hmem, hoff⟩)
      simpa using List.ne_nil_of_mem hne

/-- Claim C6, witness: a BUY order is always valid, and a SELL order with a
single line requesting 12 of a variant holding 8 is invalid. -/
theorem stock_validation_spec_witness :
    (validateProductQuantities OrderType.BUY
        [⟨"p1", "Widget", some [⟨"v1", "Widget-A", 20, 8, some [⟨8, 10⟩]⟩]⟩]
        [⟨"p1", "v1", some 20, some 12, ""⟩] = (true, []))
    ∧ ((validateProductQuantities OrderType.SELL
        [⟨"p1", "Widget", some [⟨"v1", "Widget-A", 20, 8, some [⟨8, 10⟩]⟩]⟩]
        [⟨"p1", "v1", some 20, some 12, ""⟩]).1 = false
      ↔ ∃ iv ∈ ([⟨"p1", "v1", some 20, some 12, ""⟩] :
            List OrderProduct).enum, ∃ variant,
          jsMapGet (variantPairs
            [⟨"p1", "Widget", some [⟨"v1", "Widget-A", 20, 8, some [⟨8, 10⟩]⟩]⟩])
            iv.2.variantId = some variant
          ∧ ∃ x, iv.2.quantity = some x ∧ getVariantStock (some variant) < x) :=
  ⟨(stock_validation_spec OrderType.BUY _ _).1 (by simp),
    (stock_validation_spec OrderType.SELL _ _).2.2.1⟩

/-- Claim C7: balance validation returns `{isValid, errors}` with `isValid`
true and `errors` empty whenever the order type is not BUY (SELL/MISC
orders are always valid); for BUY orders, `isValid = false` iff some
payment with a resolved account has an amount strictly exceeding the
account's balance, and the errors are exactly one record per offending
payment, carrying the account name, requested amount and available
balance. -/
theorem balance_validation_spec (payments : List OrderPayment)
    (accounts : List Account) (type : OrderType) :
    (type ≠ OrderType.BUY → validateAccountBalances payments accounts type = (true, []))
    ∧ ((validateAccountBalances payments accounts type).1
        = (validateAccountBalances payments accounts type).2.isEmpty)
    ∧ ((validateAccountBalances payments accounts OrderType.BUY).1 = false
        ↔ ∃ ip ∈ payments.enum, ∃ account,
            jsMapGet (accountPairs accounts) ip.2.accountId = some account
            ∧ account.balance < ip.2.amount)
    ∧ (validateAccountBalances payments accounts OrderType.BUY).2
        = (payments.enum.filter (offendsBalance accounts)).map (mkBalanceError accounts) := by
  refine ⟨?_, ?_, ?_, balance_errors_eq payments accounts⟩
  · intro ht
    unfold validateAccountBalances
    rw [if_pos ht]
  · unfold validateAccountBalances
    by_cases ht : type ≠ OrderType.BUY
    · rw [if_pos ht]; rfl
    · rw [if_neg ht]
  · have hfst : (validateAccountBalances payments accounts OrderType.BUY).1
        = (validateAccountBalances payments accounts OrderType.BUY).2.isEmpty := by
      unfold validateAccountBalances
      rw [if_neg (by simp : ¬ OrderType.BUY ≠ OrderType.BUY)]
    constructor
    · intro hfalse
      rw [hfst, balance_errors_eq payments accounts] at hfalse
      have hnil : (payments.enum.filter (offendsBalance accounts)).map
          (mkBalanceError accounts) ≠ [] := by simp_all
      rcases List.exists_mem_of_ne_nil _ hnil with ⟨e, he⟩
      rcases List.mem_map.mp he with ⟨ip, hipmem, _⟩
      rcases List.mem_filter.mp hipmem with ⟨hmem, hoff⟩
      refine ⟨ip, hmem, ?_⟩
      unfold offendsBalance at hoff
      cases ha : jsMapGet (accountPairs accounts) ip.2.accountId with
      | none => rw [ha] at hoff; simp at hoff
      | some account =>
        rw [ha] at hoff
        exact ⟨account, rfl, by simpa using hoff⟩
    · rintro ⟨ip, hmem, account, ha, hlt⟩
      have hoff : offendsBalance accounts ip = true := by
        unfold offendsBalance
        rw [ha]
        simpa using hlt
      rw [hfst, balance_errors_eq payments accounts]
      have hne : mkBalanceError accounts ip
          ∈ (payments.enum.filter (offendsBalance accounts)).map (mkBalanceError accounts) :=
        List.mem_map_of_mem _ (List.mem_filter.mpr ⟨hmem, hoff⟩)
      simpa using List.ne_nil_of_mem hne

/-- Claim C7, witness: a SELL order is always valid, and a BUY order paying
500 from an account holding 300 is invalid. -/
theorem balance_validation_spec_witness :
    (validateAccountBalances [⟨"a1", 500⟩] [⟨"a1", "Bank", "BANK", 300⟩]
        OrderType.SELL = (true, []))
    ∧ ((validateAccountBalances [⟨"a1", 500⟩] [⟨"a1", "Bank", "BANK", 300⟩]
        OrderType.BUY).1 = false
      ↔ ∃ ip ∈ ([⟨"a1", 500⟩] : List OrderPayment).enum, ∃ account,
          jsMapGet (accountPairs [⟨"a1", "Bank", "BANK", 300⟩]) ip.2.accountId
            = some account
          ∧ account.balance < ip.2.amount) :=
  ⟨(balance_validation_spec _ _ OrderType.SELL).1 (by simp),
    (balance_validation_spec [⟨"a1", 500⟩] [⟨"a1", "Bank", "BANK", 300⟩]
      OrderType.SELL).2.2.1⟩

/-! ### Entity ledger and Settlement Reducer
(`src/components/modules/SingleEntityDetails.tsx`) -/

/-- `calculateOrderPaidAmount`: `order.paidTillNow || 0`. -/
def calculateOrderPaidAmount (order : Order) : ℚ := nanToZero order.paidTillNow

/-- `calculateOrderRemaining`: `order.totalAmount - paidAmount` — note: the
source does not clamp this to be nonnegative. -/
def calculateOrderRemaining (order : Order) : ℚ :=
  order.totalAmount - calculateOrderPaidAmount order

/-- The sort comparator of `handleAddPayment` read as a weak order: BUY
orders first (business owes money), ties broken by ascending creation
date. -/
def orderBefore (a b : Order) : Prop :=
  (a.type = OrderType.BUY ∧ b.type ≠ OrderType.BUY)
  ∨ ((a.type = OrderType.BUY ↔ b.type = OrderType.BUY) ∧ a.createdAt ≤ b.createdAt)

instance : DecidableRel orderBefore := fun a b => by
  unfold orderBefore
  exact inferInstance

instance : IsTotal Order orderBefore := by
  constructor
  intro a b
  unfold orderBefore
  rcases Nat.le_total a.createdAt b.createdAt with h | h <;>
    by_cases ha : a.type = OrderType.BUY <;>
    by_cases hb : b.type = OrderType.BUY <;> tauto

instance : IsTrans Order orderBefore := by
  constructor
  intro a b c hab hbc
  unfold orderBefore at hab hbc ⊢
  by_cases ha : a.type = OrderType.BUY <;>
    by_cases hb : b.type = OrderType.BUY <;>
    by_cases hc : c.type = OrderType.BUY <;>
    simp_all <;> omega

/-- The processing pool of `handleAddPayment`: orders with positive
remaining, stably sorted BUY-first then by ascending creation date. -/
def ordersToProcess (orders : List Order) : List Order :=
  (orders.filter (fun o => decide (0 < calculateOrderRemaining o))).insertionSort orderBefore

/-- The greedy allocation loop of `handleAddPayment`: take
`min(remainingAmount, order remaining)` from each order in turn, record the
allocation when positive, stop when the budget is exhausted. -/
def settleGreedy : ℚ → List Order → List (Order × ℚ)
  | _, [] => []
  | remainingAmount, order :: rest =>
    if remainingAmount ≤ 0 then []
    else
      let toPay := calculateOrderRemaining order
      if toPay ≤ 0 then settleGreedy remainingAmount rest
      else
        let took := min remainingAmount toPay
        if 0 < took then (order, took) :: settleGreedy (remainingAmount - took) rest
        else settleGreedy (remainingAmount - took) rest

/-- `handleAddPayment` (the settlement reducer, minus the HTTP calls):
returns nothing for a nonpositive amount, otherwise greedily allocates the
amount across the processing pool. -/
def handleAddPayment (amount : ℚ) (orders : List Order) : List (Order × ℚ) :=
  if amount ≤ 0 then [] else settleGreedy amount (ordersToProcess orders)

/-! ### Helper lemmas for the settlement reducer -/

lemma sum_remaining_nonneg :
    ∀ (l : List Order), (∀ o ∈ l, 0 < calculateOrderRemaining o) →
      0 ≤ (l.map calculateOrderRemaining).sum := by
  intro l
  induction l with
  | nil => intro _; simp
  | cons o rest ih =>
    intro hall
    have h1 : 0 < calculateOrderRemaining o := hall o (by simp)
    have h2 : 0 ≤ (rest.map calculateOrderRemaining).sum :=
      ih (fun o' ho' => hall o' (by simp [ho']))
    simp only [List.map_cons, List.sum_cons]
    linarith

lemma settleGreedy_sum :
    ∀ (l : List Order), (∀ o ∈ l, 0 < calculateOrderRemaining o) →
      ∀ (budget : ℚ), 0 ≤ budget →
        ((settleGreedy budget l).map Prod.snd).sum
          = min budget ((l.map calculateOrderRemaining).sum) := by
  intro l
  induction l with
  | nil =>
    intro _ budget hb
    simp only [settleGreedy, List.map_nil, List.sum_nil]
    exact (min_eq_right hb).symm
  | cons o rest ih =>
    intro hall budget hb
    have hro : 0 < calculateOrderRemaining o := hall o (by simp)
    have hrest : ∀ o' ∈ rest, 0 < calculateOrderRemaining o' :=
      fun o' ho' => hall o' (by simp [ho'])
    have hsum : 0 ≤ (rest.map calculateOrderRemaining).sum := sum_remaining_nonneg rest hrest
    by_cases hb0 : budget ≤ 0
    · have hz : budget = 0 := le_antisymm hb0 hb
      subst hz
      have hgz : settleGreedy 0 (o :: rest) = [] := by
        simp [settleGreedy]
      rw [hgz]
      simp only [List.map_nil, List.sum_nil, List.map_cons, List.sum_cons]
      rw [min_eq_left (by linarith)]
    · push_neg at hb0
      have htook_pos : 0 < min budget (calculateOrderRemaining o) := lt_min hb0 hro
      have hgz : settleGreedy budget (o :: rest)
          = (o, min budget (calculateOrderRemaining o))
            :: settleGreedy (budget - min budget (calculateOrderRemaining o)) rest := by
        simp [settleGreedy, not_le.mpr hb0, not_le.mpr hro, htook_pos]
      rw [hgz]
      have hle_budget : min budget (calculateOrderRemaining o) ≤ budget := min_le_left _ _
      have hih := ih hrest (budget - min budget (calculateOrderRemaining o)) (by linarith)
      simp only [List.map_cons, List.sum_cons, hih]
      by_cases hcase : budget ≤ calculateOrderRemaining o
      · rw [min_eq_left hcase]
        rw [min_eq_left
          (by linarith : budget - budget ≤ (rest.map calculateOrderRemaining).sum)]
        rw [min_eq_left
          (by linarith :
            budget ≤ calculateOrderRemaining o + (rest.map calculateOrderRemaining).sum)]
        ring
      · push_neg at hcase
        rw [min_eq_right (le_of_lt hcase)]
        rcases le_total (budget - calculateOrderRemaining o)
            ((rest.map calculateOrderRemaining).sum) with hx | hx
        · rw [min_eq_left hx, min_eq_left (by linarith)]
          ring
        · rw [min_eq_right hx, min_eq_right (by linarith)]

lemma settleGreedy_mem :
    ∀ (l : List Order) (budget : ℚ) (p : Order × ℚ), p ∈ settleGreedy budget l →
      0 < p.2 ∧ p.2 ≤ calculateOrderRemaining p.1 := by
  intro l
  induction l with
  | nil => intro budget p hp; simp [settleGreedy] at hp
  | cons o rest ih =>
    intro budget p hp
    by_cases h1 : budget ≤ 0
    · rw [show settleGreedy budget (o :: rest) = [] from by simp [settleGreedy, h1]] at hp
      simp at hp
    · by_cases h2 : calculateOrderRemaining o ≤ 0
      · rw [show settleGreedy budget (o :: rest) = settleGreedy budget rest from by
          simp [settleGreedy, h1, h2]] at hp
        exact ih budget p hp
      · push_neg at h1 h2
        have htook : 0 < min budget (calculateOrderRemaining o) := lt_min h1 h2
        rw [show settleGreedy budget (o :: rest)
            = (o, min budget (calculateOrderRemaining o))
              :: settleGreedy (budget - min budget (calculateOrderRemaining o)) rest from by
          simp [settleGreedy, not_le.mpr h1, not_le.mpr h2, htook]] at hp
        rcases List.mem_cons.mp hp with hhead | htail
        · subst hhead
          exact ⟨htook, min_le_right _ _⟩
        · exact ih _ p htail

lemma mem_ordersToProcess (orders : List Order) (o : Order)
    (h : o ∈ ordersToProcess orders) : 0 < calculateOrderRemaining o := by
  unfold ordersToProcess at h
  rw [List.mem_insertionSort] at h
  simpa using (List.mem_filter.mp h).2

/-! ### Claim theorems: settlement and ledger remaining -/

/-- Claim C2: for every nonnegative payment amount and pool of an entity's
orders, the settlement reducer processes the orders with positive remaining
in BUY-first then ascending-creation-date order (the pool is sorted by that
priority and is a permutation of the positive-remaining filter), every
recorded allocation is positive and bounded by its order's remaining, and
the allocated amounts sum to `min(amount, total outstanding)` — hence at
most the requested amount, with equality unless the outstanding orders are
exhausted first. -/
theorem settlement_reducer_spec (amount : ℚ) (orders : List Order)
    (hamount : 0 ≤ amount) :
    List.Sorted orderBefore (ordersToProcess orders)
    ∧ (ordersToProcess orders).Perm
        (orders.filter (fun o => decide (0 < calculateOrderRemaining o)))
    ∧ ((handleAddPayment amount orders).map Prod.snd).sum
        = min amount ((ordersToProcess orders).map calculateOrderRemaining).sum
    ∧ ((handleAddPayment amount orders).map Prod.snd).sum ≤ amount
    ∧ (amount ≤ ((ordersToProcess orders).map calculateOrderRemaining).sum →
        ((handleAddPayment amount orders).map Prod.snd).sum = amount)
    ∧ (∀ p ∈ handleAddPayment amount orders,
        0 < p.2 ∧ p.2 ≤ calculateOrderRemaining p.1) := by
  have hpool : ∀ o ∈ ordersToProcess orders, 0 < calculateOrderRemaining o :=
    fun o ho => mem_ordersToProcess orders o ho
  have hsum : ((handleAddPayment amount orders).map Prod.snd).sum
      = min amount ((ordersToProcess orders).map calculateOrderRemaining).sum := by
    unfold handleAddPayment
    by_cases hz : amount ≤ 0
    · rw [if_pos hz]
      have hz0 : amount = 0 := le_antisymm hz hamount
      subst hz0
      have h0 : 0 ≤ ((ordersToProcess orders).map calculateOrderRemaining).sum :=
        sum_remaining_nonneg _ hpool
      simp only [List.map_nil, List.sum_nil]
      rw [min_eq_left h0]
    · rw [if_neg hz]
      exact settleGreedy_sum (ordersToProcess orders) hpool amount hamount
  refine ⟨List.sorted_insertionSort orderBefore _, List.perm_insertionSort orderBefore _,
    hsum, ?_, ?_, ?_⟩
  · rw [hsum]; exact min_le_left _ _
  · intro hle
    rw [hsum]
    exact min_eq_left hle
  · intro p hp
    unfold handleAddPayment at hp
    by_cases hz : amount ≤ 0
    · rw [if_pos hz] at hp; simp at hp
    · rw [if_neg hz] at hp
      exact settleGreedy_mem _ _ p hp

/-- The scenario ledger: two BUY orders outstanding with remaining 300 and
500, oldest first. -/
def demoOrders : List Order :=
  [⟨"A", OrderType.BUY, 1, 300, some 0⟩, ⟨"B", OrderType.BUY, 2, 500, some 0⟩]

/-- Claim C2, witness: a settlement payment of 700 against the scenario
ledger allocates 300 to order A and 400 to order B, summing to 700. -/
theorem settlement_reducer_spec_witness :
    (0:ℚ) ≤ 700
    ∧ ((handleAddPayment 700 demoOrders).map Prod.snd).sum = 700
    ∧ handleAddPayment 700 demoOrders
        = [(⟨"A", OrderType.BUY, 1, 300, some 0⟩, 300),
           (⟨"B", OrderType.BUY, 2, 500, some 0⟩, 400)] :=
  ⟨by norm_num,
    (settlement_reducer_spec 700 demoOrders (by norm_num)).2.2.2.2.1 (by
      norm_num [ordersToProcess, demoOrders, calculateOrderRemaining,
        calculateOrderPaidAmount, nanToZero, List.insertionSort, List.orderedInsert,
        orderBefore]),
    by
      norm_num [handleAddPayment, ordersToProcess, demoOrders, settleGreedy,
        calculateOrderRemaining, calculateOrderPaidAmount, nanToZero,
        List.insertionSort, List.orderedInsert, orderBefore]⟩

/-- Claim C8, counterexample: an order with `totalAmount = 100` and
`paidTillNow = 150` has computed remaining `-50`, not the claimed
`max(totalAmount - paidTillNow, 0) = 0` — the source does not clamp. -/
theorem order_remaining_unclamped_cex :
    calculateOrderRemaining ⟨"o1", OrderType.BUY, 0, 100, some 150⟩ = -50
    ∧ max ((100:ℚ) - 150) 0 = 0
    ∧ calculateOrderRemaining ⟨"o1", OrderType.BUY, 0, 100, some 150⟩
        ≠ max ((100:ℚ) - 150) 0 := by
  norm_num [calculateOrderRemaining, calculateOrderPaidAmount, nanToZero]

/-- Claim C8, amended: the computed remaining equals
`totalAmount - paidTillNow` (a missing/NaN `paidTillNow` counting as 0)
with no clamping — it is strictly negative whenever `paidTillNow` exceeds
`totalAmount`; the settlement reducer never allocates to an order whose
remaining is not strictly positive, so overpaid orders are excluded there
by the `remaining > 0` filter rather than by clamping. -/
theorem order_remaining_spec (o : Order) (amount : ℚ) (orders : List Order) :
    calculateOrderRemaining o = o.totalAmount - calculateOrderPaidAmount o
    ∧ (o.totalAmount < calculateOrderPaidAmount o → calculateOrderRemaining o < 0)
    ∧ (∀ p ∈ handleAddPayment amount orders, 0 < calculateOrderRemaining p.1) := by
  refine ⟨rfl, ?_, ?_⟩
  · intro hlt
    unfold calculateOrderRemaining
    linarith
  · intro p hp
    unfold handleAddPayment at hp
    by_cases hz : amount ≤ 0
    · rw [if_pos hz] at hp; simp at hp
    · rw [if_neg hz] at hp
      have hmem : ∀ (l : List Order) (budget : ℚ) (q : Order × ℚ),
          q ∈ settleGreedy budget l → (∀ o' ∈ l, 0 < calculateOrderRemaining o') →
          0 < calculateOrderRemaining q.1 := by
        intro l
        induction l with
        | nil => intro budget q hq _; simp [settleGreedy] at hq
        | cons o' rest ih =>
          intro budget q hq hall
          by_cases h1 : budget ≤ 0
          · rw [show settleGreedy budget (o' :: rest) = [] from by
              simp [settleGreedy, h1]] at hq
            simp at hq
          · by_cases h2 : calculateOrderRemaining o' ≤ 0
            · rw [show settleGreedy budget (o' :: rest) = settleGreedy budget rest from by
                simp [settleGreedy, h1, h2]] at hq
              exact ih budget q hq (fun x hx => hall x (by simp [hx]))
            · push_neg at h1 h2
              have htook : 0 < min budget (calculateOrderRemaining o') := lt_min h1 h2
              rw [show settleGreedy budget (o' :: rest)
                  = (o', min budget (calculateOrderRemaining o'))
                    :: settleGreedy (budget - min budget (calculateOrderRemaining o')) rest
                  from by simp [settleGreedy, not_le.mpr h1, not_le.mpr h2, htook]] at hq
              rcases List.mem_cons.mp hq with hhead | htail
              · subst hhead
                exact h2
              · exact ih _ q htail (fun x hx => hall x (by simp [hx]))
      exact hmem (ordersToProcess orders) amount p hp
        (fun o' ho' => mem_ordersToProcess orders o' ho')

/-- Claim C8, witness: the overpaid order has negative remaining, and a
concrete allocation of the settlement reducer targets an order with
positive remaining. -/
theorem order_remaining_spec_witness :
    ((100:ℚ) < 150
      ∧ calculateOrderRemaining ⟨"o1", OrderType.BUY, 0, 100, some 150⟩ < 0)
    ∧ ((⟨"A", OrderType.BUY, 1, 300, some 0⟩, (300:ℚ)) ∈ handleAddPayment 700 demoOrders
      ∧ 0 < calculateOrderRemaining ⟨"A", OrderType.BUY, 1, 300, some 0⟩) := by
  have hpay : handleAddPayment 700 demoOrders
      = [(⟨"A", OrderType.BUY, 1, 300, some 0⟩, 300),
         (⟨"B", OrderType.BUY, 2, 500, some 0⟩, 400)] := by
    norm_num [handleAddPayment, ordersToProcess, demoOrders, settleGreedy,
      calculateOrderRemaining, calculateOrderPaidAmount, nanToZero,
      List.insertionSort, List.orderedInsert, orderBefore]
  have hmemA : (⟨"A", OrderType.BUY, 1, 300, some 0⟩, (300:ℚ)) ∈ handleAddPayment 700 demoOrders := by
    rw [hpay]; simp
  exact ⟨⟨by norm_num,
      (order_remaining_spec ⟨"o1", OrderType.BUY, 0, 100, some 150⟩ 700 demoOrders).2.1
        (by norm_num [calculateOrderPaidAmount, nanToZero])⟩,
    hmemA,
    (order_remaining_spec ⟨"o1", OrderType.BUY, 0, 100, some 150⟩ 700 demoOrders).2.2
      _ hmemA⟩

/-! ### Order Form State Machine
(`src/components/forms/order/create-order.tsx` and `product-details.tsx`) -/

/-- UI workflow step (`FormStep` in `types.ts`). -/
inductive FormStep where
  | details
  | payment
  | summary
deriving DecidableEq

/-- `OrderFormState` in `types.ts`; `orderDate` is a `Date`, modelled as a
timestamp. -/
structure OrderFormState where
  entity : Option Entity
  products : List OrderProduct
  discount : ℚ
  discountType : AmountKind
  discountPercentage : ℚ
  charges : List OrderCharge
  tax : ℚ
  taxType : AmountKind
  taxPercentage : ℚ
  description : String
  orderDate : ℕ
  payments : List OrderPayment
  isPublic : Bool
deriving DecidableEq

/-- The pieces of `CreateOrder` component state touched by `resetForm`. -/
structure ComponentState where
  formState : OrderFormState
  currentStep : FormStep
  error : Option String
deriving DecidableEq

/-- `resetForm`: replaces the form state with a fresh empty cart (one blank
line item, no entity, zero discount/tax, no charges or payments, the order
date set to the current clock reading `now`), clears the form-level error
and returns the step to `details`.  The previous state is discarded
entirely. -/
def resetForm (now : ℕ) (_state : ComponentState) : ComponentState :=
  { formState :=
      { entity := none
        products := [{ productId := "", variantId := "", rate := some 0,
                       quantity := some 1, description := "" }]
        discount := 0
        discountType := AmountKind.fixed
        discountPercentage := 0
        charges := []
        tax := 0
        taxType := AmountKind.fixed
        taxPercentage := 0
        description := ""
        orderDate := now
        payments := []
        isPublic := false }
    currentStep := FormStep.details
    error := none }

/-- `handleQuantityChange` in `ProductItemRow`: clamp the new quantity to at
least 1 (`Math.max(1, newQuantity || 1)`), additionally cap it at the
variant's available stock on SELL orders with a resolved variant, and in
that SELL case also overwrite the line's rate with the variant's current
sell price; all other fields of the line item are left untouched. -/
def handleQuantityChange (type : OrderType) (variant : Option ProductVariant)
    (item : OrderProduct) (newQuantity : JsNum) : OrderProduct :=
  let stock := getVariantStock variant
  let clamped := max 1 (jsOrDefault newQuantity 1)
  match type, variant with
  | OrderType.SELL, some v =>
    { item with quantity := some (min clamped stock), rate := some v.price }
  | _, _ => { item with quantity := some clamped }

/-! ### Claim theorems: form state machine -/

/-- A non-empty starting component state used as concrete input. -/
def demoComponentState : ComponentState :=
  { formState :=
      { entity := some ⟨"e1", "Acme", false⟩
        products := [{ productId := "p1", variantId := "v1", rate := some 20,
                       quantity := some 2, description := "" }]
        discount := 5
        discountType := AmountKind.percentage
        discountPercentage := 10
        charges := []
        tax := 13
        taxType := AmountKind.fixed
        taxPercentage := 0
        description := "draft"
        orderDate := 17
        payments := [⟨"a1", 35⟩]
        isPublic := true }
    currentStep := FormStep.summary
    error := some "Stock validation failed" }

/-- Claim C9, counterexample: applying the reset once at clock reading 0 and
then again at clock reading 1 yields carts that differ in the order date,
so the two resets do not produce the identical state the claim lists
(`orderDate` is set to the current time at each reset). -/
theorem reset_orderdate_cex :
    (resetForm 1 (resetForm 0 demoComponentState)).formState.orderDate
      ≠ (resetForm 0 demoComponentState).formState.orderDate
    ∧ resetForm 1 (resetForm 0 demoComponentState) ≠ resetForm 0 demoComponentState := by
  constructor
  · decide
  · intro h
    have := congrArg (fun s => s.formState.orderDate) h
    simp [resetForm] at this

/-- Claim C9, amended: resetting twice in a row yields states identical in
every cart field except `orderDate`, which records the clock reading of
each reset; the reset result never depends on the starting state, the
form-level error is cleared and the step returns to `details`; when the two
resets observe the same clock reading the resulting states are fully
identical. -/
theorem reset_idempotent_spec (t t' : ℕ) (s s' : ComponentState) :
    resetForm t (resetForm t' s') = resetForm t s
    ∧ (resetForm t s).error = none
    ∧ (resetForm t s).currentStep = FormStep.details
    ∧ (resetForm t s).formState.entity = (resetForm t' s').formState.entity
    ∧ (resetForm t s).formState.products = (resetForm t' s').formState.products
    ∧ (resetForm t s).formState.discount = (resetForm t' s').formState.discount
    ∧ (resetForm t s).formState.discountType = (resetForm t' s').formState.discountType
    ∧ (resetForm t s).formState.discountPercentage
        = (resetForm t' s').formState.discountPercentage
    ∧ (resetForm t s).formState.charges = (resetForm t' s').formState.charges
    ∧ (resetForm t s).formState.tax = (resetForm t' s').formState.tax
    ∧ (resetForm t s).formState.taxType = (resetForm t' s').formState.taxType
    ∧ (resetForm t s).formState.taxPercentage = (resetForm t' s').formState.taxPercentage
    ∧ (resetForm t s).formState.description = (resetForm t' s').formState.description
    ∧ (resetForm t s).formState.payments = (resetForm t' s').formState.payments
    ∧ (resetForm t s).formState.isPublic = (resetForm t' s').formState.isPublic
    ∧ (t = t' → resetForm t s = resetForm t' s') := by
  refine ⟨rfl, rfl, rfl, rfl, rfl, rfl, rfl, rfl, rfl, rfl, rfl, rfl, rfl, rfl, rfl, ?_⟩
  intro h
  subst h
  rfl

/-- Claim C9, witness: at equal clock readings the two resets agree exactly,
from any two starting states. -/
theorem reset_idempotent_spec_witness :
    (0 : ℕ) = 0
    ∧ resetForm 0 demoComponentState = resetForm 0 (resetForm 0 demoComponentState) :=
  ⟨rfl, (reset_idempotent_spec 0 0 demoComponentState
      (resetForm 0 demoComponentState)).2.2.2.2.2.2.2.2.2.2.2.2.2.2.2 rfl |>.symm⟩

/-- Claim C10: on a SELL order with a resolved variant, the quantity-change
handler clamps the new quantity to `min(max(1, n), stock)` — inside
`[1, stock]` whenever the variant has at least one unit — and silently
overwrites the line's rate with the variant's current sell price; on a BUY
order it only clamps the quantity to at least 1 and leaves the rate
unchanged; in every case all other fields of the line item are
untouched. -/
theorem quantity_change_spec (type : OrderType) (v : ProductVariant)
    (vopt : Option ProductVariant) (item : OrderProduct) (n : JsNum) :
    (handleQuantityChange OrderType.SELL (some v) item n).rate = some v.price
    ∧ (handleQuantityChange OrderType.SELL (some v) item n).quantity
        = some (min (max 1 (jsOrDefault n 1)) (getVariantStock (some v)))
    ∧ (1 ≤ getVariantStock (some v) →
        ∃ q : ℚ, (handleQuantityChange OrderType.SELL (some v) item n).quantity = some q
          ∧ 1 ≤ q ∧ q ≤ getVariantStock (some v))
    ∧ (handleQuantityChange OrderType.BUY vopt item n).rate = item.rate
    ∧ (handleQuantityChange OrderType.BUY vopt item n).quantity
        = some (max 1 (jsOrDefault n 1))
    ∧ (∃ q : ℚ, (handleQuantityChange OrderType.BUY vopt item n).quantity = some q
        ∧ 1 ≤ q)
    ∧ (handleQuantityChange type vopt item n).productId = item.productId
    ∧ (handleQuantityChange type vopt item n).variantId = item.variantId
    ∧ (handleQuantityChange type vopt item n).description = item.description := by
  have hbuy : handleQuantityChange OrderType.BUY vopt item n
      = { item with quantity := some (max 1 (jsOrDefault n 1)) } := by
    unfold handleQuantityChange
    cases vopt <;> rfl
  refine ⟨rfl, rfl, ?_, ?_, ?_, ?_, ?_, ?_, ?_⟩
  · intro hstock
    refine ⟨min (max 1 (jsOrDefault n 1)) (getVariantStock (some v)), rfl, ?_, ?_⟩
    · exact le_min (le_max_left _ _) hstock
    · exact min_le_right _ _
  · rw [hbuy]
  · rw [hbuy]
  · exact ⟨max 1 (jsOrDefault n 1), by rw [hbuy], le_max_left _ _⟩
  · unfold handleQuantityChange
    cases type <;> cases vopt <;> rfl
  · unfold handleQuantityChange
    cases type <;> cases vopt <;> rfl
  · unfold handleQuantityChange
    cases type <;> cases vopt <;> rfl

/-- Claim C10, witness: the demo variant holds 15 units, so the SELL-branch
clamp lands inside `[1, 15]` at a concrete oversized input. -/
theorem quantity_change_spec_witness :
    (1:ℚ) ≤ getVariantStock (some demoVariant)
    ∧ ∃ q : ℚ,
        (handleQuantityChange OrderType.SELL (some demoVariant)
          { productId := "p1", variantId := "v1", rate := some 7,
            quantity := some 2, description := "" } (some 99)).quantity = some q
        ∧ 1 ≤ q ∧ q ≤ getVariantStock (some demoVariant) :=
  ⟨by norm_num [getVariantStock, demoVariant, demoQueue],
    (quantity_change_spec OrderType.SELL demoVariant (some demoVariant)
      { productId := "p1", variantId := "v1", rate := some 7,
        quantity := some 2, description := "" } (some 99)).2.2.1
      (by norm_num [getVariantStock, demoVariant, demoQueue])⟩

end FinAssist
